import Mathlib

/-!
Verification of the mirage-ecs traffic-routing and lifecycle control plane.

This file gives a shallow embedding, in Lean 4, of the parts of the Go
source that the checked claims are about:

* the tag-value codec `encodeTagValue` / `decodeTagValue` (base64url,
  Go `encoding/base64` `URLEncoding`, padded, non-strict);
* the subdomain validator `validateSubdomain` together with the regular
  expression `DNSNameRegexpWithPattern` and Go's `path.Match` glob matcher;
* the reverse-proxy registry (`ReverseProxy`, `proxyHandlers`,
  `proxyHandler`) with `FindHandler`, `AddSubdomain` and the handler
  lifetime timers;
* the upstream `Transport.RoundTrip` wrapper with its auth-cookie gate and
  timeout synthesis;
* the purge predicate `Information.ShouldBePurged`;
* the task listing `ECS.List`.

Go strings are byte strings; where a definition manipulates raw bytes
(the base64 codec) we model strings as `List Nat` with entries below 256,
and where only ASCII text is at issue we use Lean `String` / `List Char`
(on ASCII the two views coincide, and UTF-8 byte order equals code-point
order, so string comparison order also coincides).  Wall-clock instants
are modelled as integers (nanoseconds since the epoch, as in Go's
`time.Time`), so `t.After(u)` is `t > u` and `t.Add(-d)` is `t - d`.
Mutexes and logging are elided: every operation here is presented as a
pure function from state to state, which is the behaviour of the Go code
under its own locks.
-/

namespace MirageECS

/-! ### Tag value codec (`encodeTagValue` / `decodeTagValue`)

Go source (ecs.go):
```
func encodeTagValue(s string) string {
        return base64.URLEncoding.EncodeToString([]byte(s))
}

func decodeTagValue(s string) string {
        d, err := base64.URLEncoding.DecodeString(s)
        if err != nil { ... ; return s }
        return string(d)
}
```
`base64.URLEncoding` is the padded URL-safe encoding with alphabet
`A-Z a-z 0-9 - _`, and it is *not* `Strict()`: the decoder accepts
non-zero trailing bits in a final partial quantum.  We model byte strings
as `List Nat` (each entry a byte value); `[]byte(s)` and `string(d)` are
identity conversions at the byte level. -/

/-- The 64-character base64url alphabet, as byte values
(`encodeURL = "ABCDEFGHIJKLMNOPQRSTUVWXYZabcdefghijklmnopqrstuvwxyz0123456789-_"`). -/
def b64alphabet : List Nat :=
  ("ABCDEFGHIJKLMNOPQRSTUVWXYZabcdefghijklmnopqrstuvwxyz0123456789-_".data.map Char.toNat)

/-- The byte value of the padding character `'='`. -/
def b64pad : Nat := 61

/-- Encoder table: the `i`-th alphabet byte (Go indexes the encoder string). -/
def b64char (i : Nat) : Nat := b64alphabet.getD i 0

/-- Decoder table: position of a byte in the alphabet, `none` when the byte is
not in the alphabet (Go's `decodeMap` holds `0xff` there). -/
def b64decChar (b : Nat) : Option Nat := b64alphabet.indexOf? b

/-- Go `Encode`: three input bytes become four alphabet bytes
(`val = b1<<16 | b2<<8 | b3`, emitted six bits at a time); a trailing byte
becomes two characters plus `==`, two trailing bytes become three characters
plus `=`. -/
def b64encode : List Nat → List Nat
  | [] => []
  | [b1] => [b64char (b1 / 4), b64char (b1 % 4 * 16), b64pad, b64pad]
  | [b1, b2] => [b64char (b1 / 4), b64char (b1 % 4 * 16 + b2 / 16),
                 b64char (b2 % 16 * 4), b64pad]
  | b1 :: b2 :: b3 :: rest =>
      b64char (b1 / 4) :: b64char (b1 % 4 * 16 + b2 / 16) ::
      b64char (b2 % 16 * 4 + b3 / 64) :: b64char (b3 % 64) :: b64encode rest

/-- First output byte of a decoded quantum: `val>>16` for
`val = v1<<18 | v2<<12 | v3<<6 | v4`. -/
def b64byte1 (v1 v2 : Nat) : Nat := v1 * 4 + v2 / 16

/-- Second output byte of a decoded quantum: `(val>>8) & 0xff`. -/
def b64byte2 (v2 v3 : Nat) : Nat := v2 % 16 * 16 + v3 / 4

/-- Third output byte of a decoded quantum: `val & 0xff`. -/
def b64byte3 (v3 v4 : Nat) : Nat := v3 % 4 * 64 + v4

/-- Go `decodeQuantum`, after newline skipping has been factored out (see
`b64decode`): the input is consumed four bytes at a time; a quantum ending in
`=` or `==` must be the final one, padding may not appear in the first two
positions, and any input whose length is not a multiple of four (for this
padded encoding) is a `CorruptInputError`.  The encoding is not `Strict()`,
so no check is made that the unused low bits of a final partial quantum are
zero.  `none` models a non-nil `err` from `DecodeString`. -/
def b64decodeBody : List Nat → Option (List Nat)
  | [] => some []
  | c1 :: c2 :: c3 :: c4 :: rest =>
    match b64decChar c1, b64decChar c2 with
    | some v1, some v2 =>
      if c3 = b64pad then
        -- "xx==" : one output byte; must end the input
        if c4 = b64pad ∧ rest = [] then some [b64byte1 v1 v2] else none
      else
        match b64decChar c3 with
        | some v3 =>
          if c4 = b64pad then
            -- "xxx=" : two output bytes; must end the input
            if rest = [] then some [b64byte1 v1 v2, b64byte2 v2 v3] else none
          else
            match b64decChar c4 with
            | some v4 =>
              match b64decodeBody rest with
              | some ds => some (b64byte1 v1 v2 :: b64byte2 v2 v3 :: b64byte3 v3 v4 :: ds)
              | none => none
            | none => none
        | none => none
    | _, _ => none
  | _ => none

/-- Byte values of `'\n'` and `'\r'`, which Go's base64 decoder skips
wherever they occur. -/
def isB64Newline (b : Nat) : Bool := b = 10 ∨ b = 13

/-- Go `base64.URLEncoding.DecodeString`: skip `\n`/`\r` anywhere, then
decode quantum by quantum. -/
def b64decode (s : List Nat) : Option (List Nat) :=
  b64decodeBody (s.filter (fun b => !isB64Newline b))

/-- `encodeTagValue(s)`: base64url-encode the bytes of `s`. -/
def encodeTagValue (s : List Nat) : List Nat := b64encode s

/-- `decodeTagValue(s)`: base64url-decode; on any decode error fall back to
returning the input unchanged. -/
def decodeTagValue (s : List Nat) : List Nat :=
  match b64decode s with
  | some d => d
  | none => s

/-- Bytes of a string literal, for concrete test inputs. -/
def strBytes (s : String) : List Nat := s.data.map Char.toNat

/-! ### Go's `path.Match` glob matcher

`validateSubdomain` calls `path.Match(s, "x")` and rejects the subdomain on
any `ErrBadPattern`; `FindHandler` and `Exists` call `path.Match(name,
subdomain)` and use the boolean match result (ignoring the error).  We embed
the matcher from Go's `path/match.go` (Go 1.16+, which validates the
remainder of the pattern before returning a no-match) over `List Char`; the
Go code works on bytes, which agrees with the rune view on the ASCII
patterns a validated subdomain can contain.  `none` models
`ErrBadPattern`. -/

/-- The leading-`*` stripping at the start of Go's `scanChunk`: returns
whether any star was consumed and the remaining pattern. -/
def stripStars : List Char → Bool × List Char
  | [] => (false, [])
  | c :: cs => if c = '*' then (true, (stripStars cs).2) else (false, c :: cs)

/-- The scanning loop of `scanChunk`: split off the next chunk, stopping at
an unbracketed `*`; `\` escapes the following character; `[`/`]` toggle the
in-range flag. -/
def scanBody : List Char → Bool → List Char × List Char
  | [], _ => ([], [])
  | c :: cs, inrange =>
    if c = '*' ∧ ¬inrange then ([], c :: cs)
    else if c = '\\' then
      match cs with
      | c2 :: cs2 =>
        let r := scanBody cs2 inrange
        (c :: c2 :: r.1, r.2)
      | [] => ([c], [])
    else
      let inr := if c = '[' then true else if c = ']' then false else inrange
      let r := scanBody cs inr
      (c :: r.1, r.2)

/-- Go `scanChunk(pattern)`: `(star, chunk, rest)`. -/
def scanChunk (p : List Char) : Bool × List Char × List Char :=
  let sp := stripStars p
  let br := scanBody sp.2 false
  (sp.1, br.1, br.2)

/-- Go `getEsc(chunk)`: read one (possibly `\`-escaped) character-class
endpoint; fails on an empty chunk, a leading `-` or `]`, a trailing `\`, or
when nothing follows the endpoint. -/
def getEsc : List Char → Option (Char × List Char)
  | [] => none
  | c :: cs =>
    if c = '-' ∨ c = ']' then none
    else if c = '\\' then
      match cs with
      | [] => none
      | c2 :: cs2 => if cs2.isEmpty then none else some (c2, cs2)
    else if cs.isEmpty then none else some (c, cs)

/-- The range-parsing loop inside `matchChunk`'s `[` case: `chunk` is the
text after `[` (and after an optional `^`), `r` the character read from the
name (`'\x00'` when the match has already failed, as Go leaves `var r rune`
at zero), `matched` the accumulated match flag and `seen` whether at least
one range has been parsed (Go's `nrange > 0`).  Returns the chunk after the
closing `]` and the match flag. -/
def parseRanges (fuel : Nat) (chunk : List Char) (r : Char)
    (matched seen : Bool) : Option (List Char × Bool) :=
  match fuel with
  | 0 => none
  | fuel + 1 =>
    match chunk with
    | ']' :: rest =>
      if seen then some (rest, matched)
      else none  -- getEsc rejects a leading ']'
    | _ =>
      match getEsc chunk with
      | none => none
      | some (lo, c1) =>
        match c1 with
        | '-' :: c2 =>
          match getEsc c2 with
          | none => none
          | some (hi, c3) =>
              parseRanges fuel c3 r (matched || (lo ≤ r ∧ r ≤ hi)) true
        | _ => parseRanges fuel c1 r (matched || (lo ≤ r ∧ r ≤ lo)) true

/-- Go `matchChunk(chunk, s)` with its `failed` flag: after a mismatch the
loop keeps consuming the chunk, checking well-formedness without reading
`s`.  Result `some (rest, ok)`; `none` is `ErrBadPattern`. -/
def matchChunk (fuel : Nat) (chunk s : List Char) (failed : Bool) :
    Option (List Char × Bool) :=
  match fuel with
  | 0 => none
  | fuel + 1 =>
    match chunk with
    | [] => if failed then some ([], false) else some (s, true)
    | c :: chunk' =>
      let failed := if ¬failed ∧ s.isEmpty then true else failed
      if c = '[' then
        let r : Char := if failed then Char.ofNat 0 else s.headD (Char.ofNat 0)
        let s1 := if failed then s else s.tail
        let nc : Bool × List Char :=
          match chunk' with
          | '^' :: cc => (true, cc)
          | cc => (false, cc)
        match parseRanges (nc.2.length + 1) nc.2 r false false with
        | none => none
        | some (chunk2, matched) =>
            matchChunk fuel chunk2 s1 (if matched = nc.1 then true else failed)
      else if c = '?' then
        let failed' := if ¬failed ∧ s.headD (Char.ofNat 0) = '/' then true else failed
        let s1 := if failed then s else s.tail
        matchChunk fuel chunk' s1 failed'
      else if c = '\\' then
        match chunk' with
        | [] => none
        | c2 :: chunk'' =>
          let failed' := if failed then true
                         else if c2 = s.headD (Char.ofNat 0) then failed else true
          let s1 := if failed then s else s.tail
          matchChunk fuel chunk'' s1 failed'
      else
        let failed' := if failed then true
                       else if c = s.headD (Char.ofNat 0) then failed else true
        let s1 := if failed then s else s.tail
        matchChunk fuel chunk' s1 failed'

/-- The "check that the remainder of the pattern is syntactically valid"
loop that Go's `Match` runs before returning a no-match. -/
def validRest (fuel : Nat) (p : List Char) : Option Bool :=
  match fuel with
  | 0 => none
  | fuel + 1 =>
    match p with
    | [] => some false
    | _ =>
      let sc := scanChunk p
      match matchChunk (sc.2.1.length + 1) sc.2.1 [] false with
      | none => none
      | some _ => validRest fuel sc.2.2

/-- The star branch of `Match`: look for a match of the chunk after
skipping `i+1` name characters (never skipping `/`).  Go either hits an
`ErrBadPattern` (`none` here), exhausts the usable name without a match and
falls through to the remainder-validity loop (`some none`), or finds the
first acceptable skip and continues the outer loop with tail `t`
(`some (some t)`); there is no further backtracking into the outer loop. -/
def starScan (chunk rest name : List Char) : Option (Option (List Char)) :=
  match name with
  | [] => some none
  | c :: name' =>
    if c = '/' then some none
    else
      match matchChunk (chunk.length + 1) chunk name' false with
      | none => none
      | some (t, ok) =>
        if ok then
          if rest.isEmpty ∧ ¬t.isEmpty then starScan chunk rest name'
          else some (some t)
        else starScan chunk rest name'

/-- Go `path.Match(pattern, name)` (fuelled outer `Pattern` loop; each
iteration consumes at least one pattern character, so
`pattern.length + 1` fuel is always enough). -/
def goMatchF (fuel : Nat) (pattern name : List Char) : Option Bool :=
  match fuel with
  | 0 => none
  | fuel + 1 =>
    if pattern.isEmpty then some name.isEmpty
    else
      let sc := scanChunk pattern
      let star := sc.1
      let chunk := sc.2.1
      let rest := sc.2.2
      if star ∧ chunk.isEmpty then
        -- trailing * matches the rest of the name unless it has a '/'
        some (!name.contains '/')
      else
        match matchChunk (chunk.length + 1) chunk name false with
        | none => none
        | some (t, ok) =>
          if ok ∧ (t.isEmpty ∨ ¬rest.isEmpty) then goMatchF fuel rest t
          else if star then
            match starScan chunk rest name with
            | none => none
            | some none =>
              -- the star scan found no match: Go falls through to the
              -- "check that the remainder of the pattern is syntactically
              -- valid" loop before returning a no-error no-match
              validRest (rest.length + 1) rest
            | some (some t) => goMatchF fuel rest t
          else validRest (rest.length + 1) rest

/-- `path.Match` with sufficient fuel. -/
def pathMatch (pattern name : List Char) : Option Bool :=
  goMatchF (pattern.length + 1) pattern name

/-- `m, _ := path.Match(name, subdomain); m` — the boolean used by
`FindHandler` and `Exists` (an error counts as no match). -/
def globMatches (pattern subdomain : String) : Bool :=
  (pathMatch pattern.data subdomain.data).getD false

/-! ### Subdomain validation (`validateSubdomain`, webapi.go)

```
var DNSNameRegexpWithPattern = regexp.MustCompile(`^[a-zA-Z*?\[\]][a-zA-Z0-9-*?\[\]]{0,61}[a-zA-Z0-9*?\[\]]$`)

func validateSubdomain(s string) error {
        if s == "" { ... }
        if len(s) < 2 { ... }
        if len(s) > 63 { ... }
        if !DNSNameRegexpWithPattern.MatchString(s) { ... }
        if _, err := path.Match(s, "x"); err != nil { return err }
        return nil
}
```
The distinct error messages are collapsed to a boolean reject here.  `len`
in Go is the byte length; we count characters, which agrees on ASCII, and a
string containing a non-ASCII character is rejected under both counts (the
regex character classes only contain ASCII). -/

/-- `[a-zA-Z]`. -/
def isAsciiAlpha (c : Char) : Bool :=
  ('a' ≤ c ∧ c ≤ 'z') ∨ ('A' ≤ c ∧ c ≤ 'Z')

/-- `[0-9]`. -/
def isAsciiDigit (c : Char) : Bool := '0' ≤ c ∧ c ≤ '9'

/-- The glob meta-characters `* ? [ ]` appearing in the regex classes. -/
def isGlobMeta (c : Char) : Bool := c = '*' ∨ c = '?' ∨ c = '[' ∨ c = ']'

/-- First character class of `DNSNameRegexpWithPattern`: `[a-zA-Z*?\[\]]`
(letters and glob meta only — note: no digits). -/
def dnsFirstClass (c : Char) : Bool := isAsciiAlpha c || isGlobMeta c

/-- Interior character class: `[a-zA-Z0-9-*?\[\]]`. -/
def dnsMidClass (c : Char) : Bool :=
  isAsciiAlpha c || isAsciiDigit c || c = '-' || isGlobMeta c

/-- Final character class: `[a-zA-Z0-9*?\[\]]`. -/
def dnsLastClass (c : Char) : Bool :=
  isAsciiAlpha c || isAsciiDigit c || isGlobMeta c

/-- `DNSNameRegexpWithPattern.MatchString s`, the anchored regex
`^[first][mid]{0,61}[last]$` unfolded: the string decomposes as a first
character in the first class, at most 61 interior characters in the
interior class, and a final character in the last class. -/
def dnsNameRegexpMatch (s : List Char) : Bool :=
  decide (2 ≤ s.length) && decide (s.length ≤ 63) &&
  (match s.head? with | some c => dnsFirstClass c | none => false) &&
  (match s.getLast? with | some c => dnsLastClass c | none => false) &&
  ((s.drop 1).dropLast.all dnsMidClass)

/-- `validateSubdomain(s)` collapsed to accept/reject. -/
def validateSubdomain (s : String) : Bool :=
  if s.data.isEmpty then false
  else if s.data.length < 2 then false
  else if 63 < s.data.length then false
  else if ¬ dnsNameRegexpMatch s.data then false
  else if (pathMatch s.data ['x']).isNone then false
  else true

/-- The acceptance condition exactly as the claim states it (spec wording):
2–63 characters, first *and* last characters "alphanumeric or glob-meta",
interior characters alphanumeric, glob-meta or `-`, and the string compiles
as a valid shell-glob pattern. -/
def claimSubdomainOK (s : String) : Bool :=
  decide (2 ≤ s.data.length) && decide (s.data.length ≤ 63) &&
  (match s.data.head? with
   | some c => isAsciiAlpha c || isAsciiDigit c || isGlobMeta c
   | none => false) &&
  (match s.data.getLast? with
   | some c => isAsciiAlpha c || isAsciiDigit c || isGlobMeta c
   | none => false) &&
  ((s.data.drop 1).dropLast.all dnsMidClass) &&
  !(pathMatch s.data ['x']).isNone

/-- The amended acceptance condition: as the claim, except that the first
character must be alphabetic or glob-meta (the regex's first class has no
digits). -/
def amendedSubdomainOK (s : String) : Bool :=
  decide (2 ≤ s.data.length) && decide (s.data.length ≤ 63) &&
  (match s.data.head? with | some c => dnsFirstClass c | none => false) &&
  (match s.data.getLast? with | some c => dnsLastClass c | none => false) &&
  ((s.data.drop 1).dropLast.all dnsMidClass) &&
  !(pathMatch s.data ['x']).isNone

/-! ### The reverse-proxy registry (reverseproxy.go)

A `proxyHandler` couples an `http.Handler` with a one-shot `time.Timer`
preset to `proxyHandlerLifetime`; `alive()` polls whether the timer has
fired and `extend()` resets it to the full lifetime.  We take a snapshot
view at the current instant: a handler carries the time `remaining` until
its timer fires (`0` = the timer has fired, i.e. dead), and `extend` sets
`remaining` to the lifetime.  The handler itself is identified by its
destination URL string (the `rproxy.NewSingleHostReverseProxy(destUrl)`
target); nothing in the registry inspects the handler beyond identity.

Go's `proxyHandlers` is `map[int]map[string]*proxyHandler` and the registry
maps are `map[string]proxyHandlers`; map iteration order in Go is
unspecified, so we model each map as an association list whose order
stands for the iteration order the runtime happens to pick, and lookups
traverse it.  `domains` is the registration-ordered slice of names. -/

/-- `proxyHandler`: handler (destination URL) plus deadline timer snapshot;
`remaining` is the time left until the timer fires. -/
structure ProxyHandler where
  handler : String
  remaining : Nat
  deriving Repr, DecidableEq

/-- `(h *proxyHandler) alive()`: the timer has not fired yet. -/
def ProxyHandler.alive (h : ProxyHandler) : Bool := h.remaining ≠ 0

/-- `(h *proxyHandler) extend()`: reset the timer to the full lifetime. -/
def ProxyHandler.extend (lifetime : Nat) (h : ProxyHandler) : ProxyHandler :=
  { h with remaining := lifetime }

/-- `newProxyHandler(h)`: a fresh handler with a timer set to the full
lifetime. -/
def newProxyHandler (lifetime : Nat) (h : String) : ProxyHandler :=
  { handler := h, remaining := lifetime }

/-- The default `proxyHandlerLifetime` (30 seconds; local mode overwrites
the global with ten years, which is why the functions below take the
current lifetime as an argument). -/
def proxyHandlerLifetime : Nat := 30

/-- `proxyHandlers`: `map[int]map[string]*proxyHandler`
(listen port → address map). -/
abbrev ProxyHandlers := List (Int × List (String × ProxyHandler))

/-- Association-list update: replace the value at the first occurrence of
the key, or append when absent (a Go map store). -/
def assocPut {α : Type} [DecidableEq α] {β : Type} (k : α) (v : β) :
    List (α × β) → List (α × β)
  | [] => [(k, v)]
  | (k', v') :: rest =>
      if k' = k then (k, v) :: rest else (k', v') :: assocPut k v rest

/-- Association-list delete (a Go map `delete`). -/
def assocDel {α : Type} [DecidableEq α] {β : Type} (k : α) :
    List (α × β) → List (α × β)
  | [] => []
  | (k', v') :: rest =>
      if k' = k then rest else (k', v') :: assocDel k rest

/-- `ph[port]` — a missing key yields the empty map (Go's zero value). -/
def phPort (ph : ProxyHandlers) (port : Int) : List (String × ProxyHandler) :=
  ((ph.lookup port).getD [])

/-- The iteration inside `proxyHandlers.Handler`: return the first live
handler (everything after it is left untouched) and delete each dead
handler encountered before it.  Returns the found handler (if any) and the
remaining address map. -/
def handlerScan : List (String × ProxyHandler) →
    Option ProxyHandler × List (String × ProxyHandler)
  | [] => (none, [])
  | (addr, h) :: rest =>
    if h.alive then (some h, (addr, h) :: rest)
    else handlerScan rest

/-- `(ph proxyHandlers) Handler(port)`: `nil, false` when no handler map or
no live handler exists for the port; otherwise the first live handler in
iteration order, with the dead handlers scanned over deleted in place. -/
def ProxyHandlers.Handler (ph : ProxyHandlers) (port : Int) :
    Option ProxyHandler × ProxyHandlers :=
  match ph.lookup port with
  | none => (none, ph)
  | some handlers =>
    if handlers.isEmpty then (none, ph)
    else
      let sc := handlerScan handlers
      (sc.1, assocPut port sc.2 ph)

/-- `(ph proxyHandlers) exists(port, addr)`: true iff a live handler is
registered at `(port, addr)`; a live handler has its lifetime extended as a
side effect, a dead one is deleted. -/
def ProxyHandlers.existsAt (lifetime : Nat) (ph : ProxyHandlers)
    (port : Int) (addr : String) : Bool × ProxyHandlers :=
  match ph.lookup port with
  | none => (false, ph)
  | some handlers =>
    match handlers.lookup addr with
    | none => (false, ph)
    | some h =>
      if h.alive then
        (true, assocPut port (assocPut addr (h.extend lifetime) handlers) ph)
      else
        (false, assocPut port (assocDel addr handlers) ph)

/-- `(ph proxyHandlers) add(port, ipaddress, h)`. -/
def ProxyHandlers.add (lifetime : Nat) (ph : ProxyHandlers) (port : Int)
    (addr : String) (h : String) : ProxyHandlers :=
  assocPut port (assocPut addr (newProxyHandler lifetime h) (phPort ph port)) ph

/-- An access counter (`NewAccessCounter(unit)`); its bucket contents are
irrelevant to the claims checked here, only its identity and unit. -/
structure AccessCounter where
  unit : Nat
  deriving Repr, DecidableEq

/-- A listen mapping from `config.Listen.HTTP[]`. -/
structure PortMap where
  ListenPort : Int
  TargetPort : Int
  RequireAuthCookie : Bool
  deriving Repr, DecidableEq

/-- The slice of `Config` consulted by the registry: `cfg.localMode` and
`cfg.Listen.HTTP`. -/
structure Config where
  localMode : Bool
  ListenHTTP : List PortMap
  deriving Repr, DecidableEq

/-- `ReverseProxy` state: the ordered `domains` slice, the `domainMap`, and
the per-subdomain `accessCounters` (the RW mutex is elided: each operation
is a whole critical section). -/
structure ReverseProxy where
  domains : List String
  domainMap : List (String × ProxyHandlers)
  accessCounters : List (String × AccessCounter)
  accessCounterUnit : Nat
  deriving Repr, DecidableEq

/-- `FindHandler(subdomain, port)`: exact `domainMap` lookup first; on a
miss, scan `domains` in order and resolve through the first name whose glob
matches; then take any live handler for the port via
`proxyHandlers.Handler`, persisting its dead-entry deletions.  Returns the
handler (if any) and the updated registry. -/
def ReverseProxy.FindHandler (r : ReverseProxy) (subdomain : String)
    (port : Int) : Option ProxyHandler × ReverseProxy :=
  match r.domainMap.lookup subdomain with
  | some ph =>
    let hr := ph.Handler port
    (hr.1, { r with domainMap := assocPut subdomain hr.2 r.domainMap })
  | none =>
    match r.domains.find? (fun name => globMatches name subdomain) with
    | none => (none, r)
    | some name =>
      match r.domainMap.lookup name with
      | none => (none, r)  -- proxyHandlers == nil
      | some ph =>
        let hr := ph.Handler port
        (hr.1, { r with domainMap := assocPut name hr.2 r.domainMap })

/-- `net.JoinHostPort(ipaddress, strconv.Itoa(targetPort))` for a plain
IPv4 host. -/
def joinHostPort (ip : String) (port : Int) : String :=
  ip ++ ":" ++ toString port

/-- The body of `AddSubdomain`'s loop over `cfg.Listen.HTTP`: threading the
`(ph, proxy)` pair through each listen mapping.  A mapping whose target
differs from `targetPort` is skipped outside local mode; otherwise an
existing live handler is refreshed via `exists` or a new single-host
reverse proxy to `http://addr` is inserted. -/
def addSubdomainLoop (lifetime : Nat) (cfg : Config) (targetPort : Int)
    (addr : String) : List PortMap → ProxyHandlers → Bool →
    ProxyHandlers × Bool
  | [], ph, proxy => (ph, proxy)
  | v :: rest, ph, proxy =>
    if v.TargetPort ≠ targetPort ∧ ¬cfg.localMode then
      addSubdomainLoop lifetime cfg targetPort addr rest ph proxy
    else
      let ex := ph.existsAt lifetime v.ListenPort addr
      if ex.1 then
        addSubdomainLoop lifetime cfg targetPort addr rest ex.2 true
      else
        let ph' := ProxyHandlers.add lifetime ex.2 v.ListenPort addr
                     ("http://" ++ addr)
        addSubdomainLoop lifetime cfg targetPort addr rest ph' true

/-- `AddSubdomain(subdomain, ipaddress, targetPort)`.  Note the order of
effects in the source: the access counter for the subdomain is created (if
absent) *before* the listen-mapping loop, and the early `return` on the
no-mapping-matched path (`!proxy`) therefore keeps that new counter while
leaving `domainMap` and `domains` untouched.  (The `url.Parse` error branch
cannot fire for an address built by `JoinHostPort` and is elided.) -/
def ReverseProxy.AddSubdomain (lifetime : Nat) (cfg : Config)
    (r : ReverseProxy) (subdomain ipaddress : String) (targetPort : Int) :
    ReverseProxy :=
  let addr := joinHostPort ipaddress targetPort
  let ph0 := (r.domainMap.lookup subdomain).getD []
  let counters :=
    match r.accessCounters.lookup subdomain with
    | some _ => r.accessCounters
    | none => r.accessCounters ++ [(subdomain, { unit := r.accessCounterUnit })]
  let lp := addSubdomainLoop lifetime cfg targetPort addr cfg.ListenHTTP ph0 false
  if ¬lp.2 then
    -- "proxy of subdomain %s(target port %d) is not created" warning path
    { r with accessCounters := counters }
  else
    { r with
      accessCounters := counters
      domainMap := assocPut subdomain lp.1 r.domainMap
      domains := if subdomain ∈ r.domains then r.domains
                 else r.domains ++ [subdomain] }

/-- `RemoveSubdomain(subdomain)`: drop the map entry, the counter, and the
first occurrence in the ordered list. -/
def ReverseProxy.RemoveSubdomain (r : ReverseProxy) (subdomain : String) :
    ReverseProxy :=
  { r with
    domainMap := assocDel subdomain r.domainMap
    accessCounters := assocDel subdomain r.accessCounters
    domains := r.domains.eraseP (fun name => name = subdomain) }

/-- The claim's registration predicate for C2, from the spec's words: some
live handler is registered for the port either under `subdomain` directly
or under some registered name whose glob pattern matches `subdomain`. -/
def claimLiveRegistered (r : ReverseProxy) (subdomain : String) (port : Int) :
    Bool :=
  (match r.domainMap.lookup subdomain with
   | some ph => (phPort ph port).any (fun ah => ah.2.alive)
   | none => false) ||
  r.domains.any (fun name =>
    globMatches name subdomain &&
    (match r.domainMap.lookup name with
     | some ph => (phPort ph port).any (fun ah => ah.2.alive)
     | none => false))

/-- The entry `FindHandler` actually resolves to: the exact `domainMap`
entry when the key is present, otherwise the entry of the first registered
name (in registration order) whose glob matches. -/
def resolvedEntry (r : ReverseProxy) (subdomain : String) :
    Option ProxyHandlers :=
  match r.domainMap.lookup subdomain with
  | some ph => some ph
  | none =>
    match r.domains.find? (fun name => globMatches name subdomain) with
    | none => none
    | some name => r.domainMap.lookup name

/-! ### The upstream transport (`Transport.RoundTrip`, reverseproxy.go)

An HTTP response is reduced to its status code and body; the wrapped
transport's outcome is an `Except`: `.error e` models a non-nil error with
message `e`, `.ok` a response.  The auth-cookie validator
(`cfg.Auth.ValidateAuthCookie`) is an opaque function from the cookie value
to an optional error, and `req.Cookie(AuthCookieName)` is an optional
cookie value (`none` both for a missing cookie and for the accompanying
non-nil error).  `t.Counter.Add()` mutates only the access counter, which
none of the checked claims observe, so the counter is not threaded
through. -/

/-- `strings.Contains(s, sub)`: some contiguous run of `s` equals `sub`
(checked at each starting position, as a prefix of the corresponding
suffix). -/
def hasSubstring : List Char → List Char → Bool
  | [], sub => sub.isEmpty
  | c :: t, sub =>
    if sub.isPrefixOf (c :: t) then true else hasSubstring t sub

/-- `strings.Contains` on strings. -/
def goContains (s sub : String) : Bool := hasSubstring s.data sub.data

/-- An HTTP response: status code and body. -/
structure Response where
  StatusCode : Nat
  Body : String
  deriving Repr, DecidableEq

/-- `newTimeoutResponse(subdomain, u, err)`: a synthesised
`504 Gateway Timeout` with body
`fmt.Sprintf("%s upstream timeout: %s %s", subdomain, u, err.Error())`. -/
def newTimeoutResponse (subdomain u errMsg : String) : Response :=
  { StatusCode := 504
    Body := subdomain ++ " upstream timeout: " ++ u ++ " " ++ errMsg }

/-- `newForbiddenResponse()`: a synthesised `403` with body `"Forbidden"`. -/
def newForbiddenResponse : Response :=
  { StatusCode := 403, Body := "Forbidden" }

/-- The tail of `RoundTrip` after the cookie gate: call the wrapped
transport; on an error containing the substring `"timeout"` synthesise a
504, otherwise propagate the error; a response passes through. -/
def forwardToWrapped (subdomain urlStr : String)
    (inner : Except String Response) : Except String Response :=
  match inner with
  | .error e =>
    if goContains e "timeout" then .ok (newTimeoutResponse subdomain urlStr e)
    else .error e
  | .ok resp => .ok resp

/-- `AuthCookieName = "mirage-ecs-auth"`; the gate below already receives
the looked-up value of exactly this cookie. -/
def AuthCookieName : String := "mirage-ecs-auth"

/-- `Transport.RoundTrip`: when a validator is configured and the method is
not OPTIONS, a missing or rejected auth cookie yields the synthesised 403
without consulting the wrapped transport; otherwise the request is
forwarded. -/
def roundTrip (validate : Option (String → Option String))
    (subdomain method : String) (cookie : Option String) (urlStr : String)
    (inner : Except String Response) : Except String Response :=
  match validate with
  | some v =>
    if method = "OPTIONS" then forwardToWrapped subdomain urlStr inner
    else
      match cookie with
      | none => .ok newForbiddenResponse
      | some c =>
        match v c with
        | some _ => .ok newForbiddenResponse
        | none => forwardToWrapped subdomain urlStr inner
  | none => forwardToWrapped subdomain urlStr inner

/-! ### Tasks, the purge predicate and `ECS.List` (ecs.go)

An ECS task is reduced to the fields the listing reads; cluster tags are
key/value string pairs (the AWS `*string` fields are taken non-nil, with
`aws.ToString`'s empty-string reading).  Time stamps are integers;
`(*task.StartedAt).In(time.Local)` changes only the display location of an
instant, not the instant, so `Created` is the started-at instant itself
(zero when `StartedAt` is nil). -/

/-- `TagManagedBy`. -/
def TagManagedBy : String := "ManagedBy"

/-- `TagSubdomain`. -/
def TagSubdomain : String := "Subdomain"

/-- `TagValueMirage`. -/
def TagValueMirage : String := "Mirage"

/-- `statusRunning = string(types.DesiredStatusRunning)`. -/
def statusRunning : String := "RUNNING"

/-- A cluster tag (`types.Tag`). -/
structure ECSTag where
  Key : String
  Value : String
  deriving Repr, DecidableEq

/-- A container override: name and environment pairs. -/
structure ContainerOverride where
  Name : String
  Environment : List (String × String)
  deriving Repr, DecidableEq

/-- The fields of `types.Task` that `ECS.List` reads.  An attachment is
reduced to its `Details` name/value pairs. -/
structure ECSTask where
  TaskArn : String
  TaskDefinitionArn : String
  LastStatus : String
  Tags : List ECSTag
  Attachments : List (List (String × String))
  ContainerOverrides : List ContainerOverride
  StartedAt : Option Int
  deriving Repr, DecidableEq

/-- `Information`: the listing's snapshot of one workload. -/
structure Information where
  ID : String
  ShortID : String
  SubDomain : String
  GitBranch : String
  TaskDef : String
  IPAddress : String
  Created : Int
  LastStatus : String
  PortMap : List (String × Int)
  Env : List (String × String)
  Tags : List ECSTag
  deriving Repr, DecidableEq

/-- `PurgeParams` as consumed by `ShouldBePurged`: the pre-validated
duration, the exclusion key set `excludesMap`, the exact key/value map
`excludeTagsMap` (keys unique, as in a Go map), and the optional compiled
`ExcludeRegexp`, abstracted to its matching function. -/
structure PurgeParams where
  Duration : Int
  excludesMap : List String
  excludeTagsMap : List (String × String)
  ExcludeRegexp : Option (String → Bool)

/-- `Information.ShouldBePurged(p)` at wall-clock instant `now`: the task
is purged iff it is RUNNING, not excluded by name, tag or regexp, and its
creation instant is not after `now − duration` (`time.Now().Add(-p.Duration)`;
`info.Created.After(begin)` skips it). -/
def Information.ShouldBePurged (info : Information) (now : Int)
    (p : PurgeParams) : Bool :=
  if info.LastStatus ≠ statusRunning then false
  else if p.excludesMap.contains info.SubDomain then false
  else if info.Tags.any
      (fun t => p.excludeTagsMap.lookup t.Key == some t.Value) then false
  else if (match p.ExcludeRegexp with
           | some re => re info.SubDomain
           | none => false) then false
  else
    let beginT := now - p.Duration
    if info.Created > beginT then false
    else true

/-- `strings.Split(s, sep)` for a one-character separator: the pieces of
`s` between occurrences of `sep` (always at least one piece). -/
def splitChar (sep : Char) : List Char → List (List Char)
  | [] => [[]]
  | c :: t =>
    if c = sep then [] :: splitChar sep t
    else
      match splitChar sep t with
      | [] => [[c]]
      | p :: ps => (c :: p) :: ps

/-- Rejoin pieces with a one-character separator (for the part of
`strings.SplitN` that keeps later separators inside the final piece). -/
def joinChar (sep : Char) : List (List Char) → List Char
  | [] => []
  | [p] => p
  | p :: ps => p ++ sep :: joinChar sep ps

/-- `strings.SplitN(s, ":", 6)`: split on `:` into at most six pieces, the
last keeping any further separators. -/
def goSplitN6 (s : String) : List (List Char) :=
  let ps := splitChar ':' s.data
  if ps.length ≤ 6 then ps
  else ps.take 5 ++ [joinChar ':' (ps.drop 5)]

/-- `shortenArn(arn)`: the trailing path segment of the ARN's resource
part, or `""` for a malformed ARN. -/
def shortenArn (arn : String) : String :=
  let p := goSplitN6 arn
  if p.length ≠ 6 then ""
  else String.mk ((splitChar '/' (p.getLastD [])).getLastD [])

/-- The scan at the heart of `getTagsFromTask`: value of the first tag with
the given key, `""` when absent. -/
def tagValueIn (tags : List ECSTag) (name : String) : String :=
  match tags.find? (fun t => t.Key = name) with
  | some t => t.Value
  | none => ""

/-- `getTagsFromTask(task, name)`: value of the first tag with the given
key, `""` when absent. -/
def getTagsFromTask (task : ECSTask) (name : String) : String :=
  tagValueIn task.Tags name

/-- `getEnvironmentFromTask(task, name)`: from the first container
override's environment. -/
def getEnvironmentFromTask (task : ECSTask) (name : String) : String :=
  match task.ContainerOverrides with
  | [] => ""
  | ov :: _ =>
    match ov.Environment.lookup name with
    | some v => v
    | none => ""

/-- `getEnvironmentsFromTask(task)`: the first container override's
environment as a map (later pairs overwrite earlier ones). -/
def getEnvironmentsFromTask (task : ECSTask) : List (String × String) :=
  match task.ContainerOverrides with
  | [] => []
  | ov :: _ => ov.Environment.foldl (fun m nv => assocPut nv.1 nv.2 m) []

/-- `getIPV4AddressFromTask(task)`: the `privateIPv4Address` detail of the
first attachment. -/
def getIPV4AddressFromTask (task : ECSTask) : String :=
  match task.Attachments with
  | [] => ""
  | d :: _ =>
    match d.find? (fun nv => nv.1 = "privateIPv4Address") with
    | some nv => nv.2
    | none => ""

/-- The per-task body of `ECS.List`'s loop: tasks whose `ManagedBy` tag is
not `Mirage` are skipped; otherwise the `Information` snapshot is built.
`dec` abstracts `decodeTagValue` (verified separately at the byte level)
and `portMapOf` abstracts `portMapInTask` (a task-definition API call;
`none` models its error, on which `PortMap` keeps its zero value). -/
def infoOfTask (dec : String → String)
    (portMapOf : ECSTask → Option (List (String × Int)))
    (task : ECSTask) : Option Information :=
  if getTagsFromTask task TagManagedBy ≠ TagValueMirage then none
  else some
    { ID := task.TaskArn
      ShortID := shortenArn task.TaskArn
      SubDomain := dec (getTagsFromTask task TagSubdomain)
      GitBranch := getEnvironmentFromTask task "GIT_BRANCH"
      TaskDef := shortenArn task.TaskDefinitionArn
      IPAddress := getIPV4AddressFromTask task
      LastStatus := task.LastStatus
      PortMap := (portMapOf task).getD []
      Env := getEnvironmentsFromTask task
      Tags := task.Tags
      Created := task.StartedAt.getD 0 }

/-- The pagination loop of `ECS.List`: `pages` are the successive
`ListTasks`/`DescribeTasks` responses; a response with no task ARNs makes
the whole call return the empty list (discarding `infos` accumulated so
far — faithful to the early `return []*Information{}, nil`). -/
def ecsListPages (dec : String → String)
    (portMapOf : ECSTask → Option (List (String × Int)))
    (acc : List Information) : List (List ECSTask) → List Information
  | [] => acc
  | page :: rest =>
    if page.isEmpty then []
    else ecsListPages dec portMapOf
      (acc ++ page.filterMap (infoOfTask dec portMapOf)) rest

/-- One step of the sort: insert in front of the first element not below
the new one (`sort.Slice` with `less = SubDomain <` produces a sequence
nondecreasing in `SubDomain`; any correct sort does, so we model it with
insertion sort). -/
def insertBySubDomain (a : Information) : List Information → List Information
  | [] => [a]
  | b :: l =>
    if a.SubDomain ≤ b.SubDomain then a :: b :: l
    else b :: insertBySubDomain a l

/-- The `sort.Slice(infos, ...SubDomain <...)` step of `ECS.List`. -/
def sortBySubDomain (l : List Information) : List Information :=
  l.foldr insertBySubDomain []

/-- `ECS.List(desiredStatus)`: collect the Mirage-managed tasks of every
page, then sort by subdomain ascending.  The desired status only selects
which tasks the cluster reports, i.e. which `pages` arrive here. -/
def ECS.List (dec : String → String)
    (portMapOf : ECSTask → Option (List (String × Int)))
    (pages : List (List ECSTask)) : List Information :=
  sortBySubDomain (ecsListPages dec portMapOf [] pages)

/-! ### Concrete states and inputs used by the witnesses and counterexamples -/

/-- The purge criterion exactly as the claim words it ("created time is
older than now minus duration", i.e. strictly): for comparison with the
code's `ShouldBePurged`. -/
def claimShouldPurge (info : Information) (now : Int) (p : PurgeParams) : Bool :=
  (info.LastStatus == statusRunning) &&
  !(p.excludesMap.contains info.SubDomain) &&
  !(info.Tags.any (fun t => p.excludeTagsMap.lookup t.Key == some t.Value)) &&
  !(match p.ExcludeRegexp with | some re => re info.SubDomain | none => false) &&
  decide (info.Created < now - p.Duration)

/-- The amended purge criterion: as the claim, except that a task created
exactly at `now − duration` is also purged (the code skips only tasks whose
creation is strictly *after* that instant). -/
def amendedShouldPurge (info : Information) (now : Int) (p : PurgeParams) : Bool :=
  (info.LastStatus == statusRunning) &&
  !(p.excludesMap.contains info.SubDomain) &&
  !(info.Tags.any (fun t => p.excludeTagsMap.lookup t.Key == some t.Value)) &&
  !(match p.ExcludeRegexp with | some re => re info.SubDomain | none => false) &&
  decide (info.Created ≤ now - p.Duration)

/-- The boundary task for the C4 counterexample: created exactly
`duration` before `now = 1000`. -/
def boundaryInfo : Information :=
  { ID := "arn:aws:ecs:r:1:task/c/1", ShortID := "1", SubDomain := "old"
    GitBranch := "", TaskDef := "td", IPAddress := "10.0.0.9"
    Created := 700, LastStatus := "RUNNING", PortMap := [], Env := []
    Tags := [] }

/-- Purge parameters for the C4 counterexample. -/
def boundaryParams : PurgeParams :=
  { Duration := 300, excludesMap := [], excludeTagsMap := [],
    ExcludeRegexp := none }

/-- The registry and configuration for the C3 counterexample: one listen
mapping with target port 80, and an empty registry. -/
def noMatchConfig : Config :=
  { localMode := false
    ListenHTTP := [{ ListenPort := 8080, TargetPort := 80,
                     RequireAuthCookie := false }] }

/-- An empty proxy registry (fresh `NewReverseProxy` state, cluster-mode
access-counter unit of one minute). -/
def emptyRegistry : ReverseProxy :=
  { domains := [], domainMap := [], accessCounters := [],
    accessCounterUnit := 60 }

/-- The concrete state for the C1 counterexample: one subdomain with a
single live handler whose timer has 5 units left (the full lifetime being
`proxyHandlerLifetime = 30`). -/
def liveHandlerState : ReverseProxy :=
  { domains := ["app"]
    domainMap := [("app", [(80,
        [("10.0.0.5:80", { handler := "http://10.0.0.5:80", remaining := 5 })])])]
    accessCounters := [("app", { unit := 60 })]
    accessCounterUnit := 60 }

/-- The concrete state for the C2 counterexample: the exact entry for
`"app"` has only a dead handler on port 80, while the registered glob
`"a*"` (which matches `"app"`) has a live one. -/
def shadowedState : ReverseProxy :=
  { domains := ["app", "a*"]
    domainMap :=
      [("app", [(80, [("10.0.0.1:80",
          { handler := "http://10.0.0.1:80", remaining := 0 })])]),
       ("a*", [(80, [("10.0.0.2:80",
          { handler := "http://10.0.0.2:80", remaining := 10 })])])]
    accessCounters := []
    accessCounterUnit := 60 }

/-- A Mirage-managed running task, for the C9 witness. -/
def mirageTask : ECSTask :=
  { TaskArn := "arn:aws:ecs:r:1:task/c/t1"
    TaskDefinitionArn := "arn:aws:ecs:r:1:task-definition/td:1"
    LastStatus := "RUNNING"
    Tags := [{ Key := "ManagedBy", Value := "Mirage" },
             { Key := "Subdomain", Value := "app" }]
    Attachments := []
    ContainerOverrides := []
    StartedAt := some 0 }

/-- A task on the same cluster not managed by Mirage, for the C9 witness. -/
def foreignTask : ECSTask :=
  { TaskArn := "arn:aws:ecs:r:1:task/c/t2"
    TaskDefinitionArn := "arn:aws:ecs:r:1:task-definition/other:1"
    LastStatus := "RUNNING"
    Tags := []
    Attachments := []
    ContainerOverrides := []
    StartedAt := some 0 }

/-- The `Information` entry `ECS.List` builds for `mirageTask` (with the
identity tag decoder and no port map). -/
def listedInfo : Information :=
  { ID := "arn:aws:ecs:r:1:task/c/t1", ShortID := "t1", SubDomain := "app"
    GitBranch := "", TaskDef := "td:1", IPAddress := "", Created := 0
    LastStatus := "RUNNING", PortMap := [], Env := []
    Tags := [{ Key := "ManagedBy", Value := "Mirage" },
             { Key := "Subdomain", Value := "app" }] }

/-! ## Theorems

General lemmas about the embedded operations, followed by one theorem per
checked claim (with concrete witnesses and counterexamples). -/

theorem b64alphabet_length : b64alphabet.length = 64 := by decide

theorem b64decChar_b64char : ∀ v < 64, b64decChar (b64char v) = some v := by decide

theorem b64char_ne_pad : ∀ v < 64, b64char v ≠ b64pad := by decide

theorem b64char_not_newline (v : Nat) : isB64Newline (b64char v) = false := by
  by_cases h : v < 64
  · exact (by decide : ∀ v < 64, isB64Newline (b64char v) = false) v h
  · have h0 : b64char v = 0 := by
      unfold b64char
      exact List.getD_eq_default _ _ (by rw [b64alphabet_length]; omega)
    rw [h0]; decide

theorem b64encode_no_newline (bs : List Nat) :
    ∀ b ∈ b64encode bs, (!isB64Newline b) = true := by
  induction bs using b64encode.induct with
  | case1 => simp [b64encode]
  | case2 b1 =>
      simp [b64encode, b64char_not_newline]
      decide
  | case3 b1 b2 =>
      simp [b64encode, b64char_not_newline]
      decide
  | case4 b1 b2 b3 rest ih =>
      simp [b64encode, b64char_not_newline]
      simpa using ih

theorem b64decodeBody_encode :
    ∀ bs : List Nat, (∀ b ∈ bs, b < 256) → b64decodeBody (b64encode bs) = some bs := by
  intro bs
  induction bs using b64encode.induct with
  | case1 => intro _; rfl
  | case2 b1 =>
      intro h
      have hb1 : b1 < 256 := h b1 (by simp)
      have h1 : b1 / 4 < 64 := by omega
      have h2 : b1 % 4 * 16 < 64 := by omega
      simp [b64encode, b64decodeBody, b64decChar_b64char _ h1, b64decChar_b64char _ h2,
            b64byte1]
      omega
  | case3 b1 b2 =>
      intro h
      have hb1 : b1 < 256 := h b1 (by simp)
      have hb2 : b2 < 256 := h b2 (by simp)
      have h1 : b1 / 4 < 64 := by omega
      have h2 : b1 % 4 * 16 + b2 / 16 < 64 := by omega
      have h3 : b2 % 16 * 4 < 64 := by omega
      simp [b64encode, b64decodeBody, b64decChar_b64char _ h1, b64decChar_b64char _ h2,
            b64decChar_b64char _ h3, b64char_ne_pad _ h3, b64byte1, b64byte2]
      omega
  | case4 b1 b2 b3 rest ih =>
      intro h
      have hb1 : b1 < 256 := h b1 (by simp)
      have hb2 : b2 < 256 := h b2 (by simp)
      have hb3 : b3 < 256 := h b3 (by simp)
      have h1 : b1 / 4 < 64 := by omega
      have h2 : b1 % 4 * 16 + b2 / 16 < 64 := by omega
      have h3 : b2 % 16 * 4 + b3 / 64 < 64 := by omega
      have h4 : b3 % 64 < 64 := by omega
      have hrest := ih (fun b hb => h b (by simp [hb]))
      simp [b64encode, b64decodeBody, b64decChar_b64char _ h1, b64decChar_b64char _ h2,
            b64decChar_b64char _ h3, b64decChar_b64char _ h4,
            b64char_ne_pad _ h3, b64char_ne_pad _ h4, hrest, b64byte1, b64byte2, b64byte3]
      refine ⟨by omega, by omega, by omega⟩

theorem b64decode_encode (bs : List Nat) (h : ∀ b ∈ bs, b < 256) :
    b64decode (b64encode bs) = some bs := by
  unfold b64decode
  rw [List.filter_eq_self.mpr (b64encode_no_newline bs)]
  exact b64decodeBody_encode bs h

theorem lookup_mem {α : Type} [BEq α] [LawfulBEq α] {β : Type}
    {l : List (α × β)} {k : α} {v : β}
    (h : l.lookup k = some v) : (k, v) ∈ l := by
  induction l with
  | nil => simp [List.lookup] at h
  | cons p rest ih =>
    rw [List.lookup] at h
    by_cases hk : k == p.1
    · simp [hk] at h
      have h1 : k = p.1 := eq_of_beq hk
      cases p with
      | mk a b =>
        simp only at h1 h
        subst h1
        subst h
        exact List.mem_cons_self _ _
    · simp [hk] at h
      right
      exact ih h

theorem lookup_assocPut_self {α β : Type} [DecidableEq α] [BEq α] [LawfulBEq α]
    (k : α) (v : β) (l : List (α × β)) :
    (assocPut k v l).lookup k = some v := by
  induction l with
  | nil => simp [assocPut, List.lookup]
  | cons p rest ih =>
    rw [assocPut]
    by_cases hk : p.1 = k
    · simp [hk, List.lookup]
    · simp only [if_neg hk, List.lookup]
      have : (k == p.1) = false := by
        simp [beq_iff_eq]
        exact fun he => hk he.symm
      simp [this, ih]

theorem mem_assocPut {α β : Type} [DecidableEq α]
    {k : α} {v : β} {l : List (α × β)} {p : α × β}
    (h : p ∈ assocPut k v l) : p = (k, v) ∨ p ∈ l := by
  induction l with
  | nil => simp [assocPut] at h; simp [h]
  | cons q rest ih =>
    rw [assocPut] at h
    by_cases hq : q.1 = k
    · simp only [if_pos hq, List.mem_cons] at h
      rcases h with h | h
      · exact Or.inl h
      · exact Or.inr (List.mem_cons_of_mem _ h)
    · simp only [if_neg hq, List.mem_cons] at h
      rcases h with h | h
      · exact Or.inr (by simp [h])
      · rcases ih h with h' | h'
        · exact Or.inl h'
        · exact Or.inr (List.mem_cons_of_mem _ h')

theorem handlerScan_sublist (l : List (String × ProxyHandler)) :
    ∀ p ∈ (handlerScan l).2, p ∈ l := by
  induction l with
  | nil => simp [handlerScan]
  | cons q rest ih =>
    rw [handlerScan]
    by_cases hq : q.2.alive
    · simp [hq]
    · simp only [hq, Bool.false_eq_true, if_false]
      intro p hp
      exact List.mem_cons_of_mem _ (ih p hp)

theorem handlerScan_isSome_iff (l : List (String × ProxyHandler)) :
    (handlerScan l).1.isSome = l.any (fun ah => ah.2.alive) := by
  induction l with
  | nil => simp [handlerScan]
  | cons q rest ih =>
    rw [handlerScan]
    by_cases hq : q.2.alive
    · simp [hq]
    · simp [hq, ih]

theorem handlerScan_none_nil (l : List (String × ProxyHandler))
    (h : (handlerScan l).1 = none) : (handlerScan l).2 = [] := by
  induction l with
  | nil => simp [handlerScan]
  | cons q rest ih =>
    rw [handlerScan] at h ⊢
    by_cases hq : q.2.alive
    · simp [hq] at h
    · simp only [hq, Bool.false_eq_true, if_false] at h ⊢
      exact ih h

/-- C8 counterexample: `"QR=="` is accepted by the base64url decoder (Go's
default decoders are not strict about the unused trailing bits), yet
`encodeTagValue (decodeTagValue "QR==")` is `"QQ=="`, not `"QR=="`; so the
encode-after-decode direction fails on a valid but non-canonical input. -/
theorem tagValueCodec_counterexample :
    (b64decode (strBytes "QR==")).isSome = true ∧
    encodeTagValue (decodeTagValue (strBytes "QR==")) ≠ strBytes "QR==" := by
  decide

/-- C8 (amended): `decodeTagValue (encodeTagValue s) = s` for every byte
string `s`, and `encodeTagValue (decodeTagValue x) = x` for every *canonical*
base64url string `x` (one in the image of `encodeTagValue`); for merely
valid inputs the second direction can fail (see the counterexample). -/
theorem tagValueCodec_roundTrip (bs : List Nat) (h : ∀ b ∈ bs, b < 256) :
    decodeTagValue (encodeTagValue bs) = bs ∧
    b64decode (encodeTagValue bs) = some bs ∧
    (∀ x, x = encodeTagValue bs → encodeTagValue (decodeTagValue x) = x) := by
  have hd : b64decode (encodeTagValue bs) = some bs := b64decode_encode bs h
  have h1 : decodeTagValue (encodeTagValue bs) = bs := by
    unfold decodeTagValue
    rw [hd]
  refine ⟨h1, hd, ?_⟩
  intro x hx
  subst hx
  rw [h1]

theorem tagValueCodec_roundTrip_witness :
    (∀ b ∈ strBytes "hi!", b < 256) ∧
    decodeTagValue (encodeTagValue (strBytes "hi!")) = strBytes "hi!" :=
  ⟨by decide, (tagValueCodec_roundTrip (strBytes "hi!") (by decide)).1⟩

/-- C10: `decodeTagValue` is total and, whenever the base64url decode
fails, returns its input unchanged. -/
theorem decodeTagValue_fallback (x : List Nat) (h : b64decode x = none) :
    decodeTagValue x = x := by
  unfold decodeTagValue
  rw [h]

theorem decodeTagValue_fallback_witness :
    b64decode (strBytes "!mirage") = none ∧
    decodeTagValue (strBytes "!mirage") = strBytes "!mirage" :=
  ⟨by decide, decodeTagValue_fallback (strBytes "!mirage") (by decide)⟩

theorem amendedSubdomainOK_eq (s : String) :
    amendedSubdomainOK s
      = (dnsNameRegexpMatch s.data && !(pathMatch s.data ['x']).isNone) := rfl

theorem validateSubdomain_eq_amended (s : String) :
    validateSubdomain s = amendedSubdomainOK s := by
  rw [amendedSubdomainOK_eq]
  unfold validateSubdomain
  by_cases h1 : s.data.isEmpty = true
  · have hnil : s.data = [] := List.isEmpty_iff.mp h1
    rw [if_pos h1, hnil]
    decide
  · rw [if_neg h1]
    by_cases h2 : s.data.length < 2
    · rw [if_pos h2]
      have hno : decide (2 ≤ s.data.length) = false := by
        simp only [decide_eq_false_iff_not]
        omega
      unfold dnsNameRegexpMatch
      rw [hno]
      simp
    · rw [if_neg h2]
      by_cases h3 : 63 < s.data.length
      · rw [if_pos h3]
        have hno : decide (s.data.length ≤ 63) = false := by
          simp only [decide_eq_false_iff_not]
          omega
        unfold dnsNameRegexpMatch
        rw [hno]
        simp
      · rw [if_neg h3]
        by_cases h4 : dnsNameRegexpMatch s.data = true
        · rw [if_neg (not_not_intro h4)]
          by_cases h5 : (pathMatch s.data ['x']).isNone = true
          · rw [if_pos h5]
            simp [h4, h5]
          · rw [if_neg h5]
            simp only [Bool.not_eq_true] at h5
            simp [h4, h5]
        · rw [if_pos h4]
          simp only [Bool.not_eq_true] at h4
          simp [h4]

/-- C5 counterexample: the claim admits any *alphanumeric* first character,
but the regex's first class `[a-zA-Z*?\[\]]` has no digits: `"1b"`
satisfies the claim's characterisation yet `validateSubdomain` rejects it. -/
theorem validateSubdomain_counterexample :
    claimSubdomainOK "1b" = true ∧ validateSubdomain "1b" = false := by
  decide

/-- C5 (amended): `validateSubdomain` accepts `s` iff `s` is 2-63
characters, its first character is *alphabetic* or glob-meta (digits are
not allowed first), its last character is alphanumeric or glob-meta, its
interior characters are alphanumeric, glob-meta or `-`, and `s` compiles as
a valid shell-glob pattern; the claim's example inputs behave as listed,
and `"*a*["` — whose bad character class `path.Match` only reaches through
the remainder-validity check after a failed star scan — is rejected. -/
theorem validateSubdomain_amended :
    (∀ s, validateSubdomain s = amendedSubdomainOK s) ∧
    validateSubdomain "abc" = true ∧ validateSubdomain "a-b-c" = true ∧
    validateSubdomain "a*c" = true ∧ validateSubdomain "[ab]c" = true ∧
    validateSubdomain "" = false ∧ validateSubdomain "a" = false ∧
    validateSubdomain "-ab" = false ∧ validateSubdomain "ab-" = false ∧
    validateSubdomain (String.mk (List.replicate 64 'a')) = false ∧
    validateSubdomain "ab/cd" = false ∧
    validateSubdomain "*a*[" = false :=
  ⟨validateSubdomain_eq_amended, by decide, by decide, by decide, by decide,
   by decide, by decide, by decide, by decide, by decide, by decide,
   by decide⟩

/-- C4 counterexample: at `now = 1000` with `duration = 300` a task created
at instant `700 = now − duration` is purged by the code, but its creation
time is not strictly older than `now − duration`, so the claim's iff fails
at the boundary. -/
theorem shouldBePurged_counterexample :
    boundaryInfo.ShouldBePurged 1000 boundaryParams = true ∧
    claimShouldPurge boundaryInfo 1000 boundaryParams = false := by
  constructor
  · rfl
  · rfl

/-- C4 (amended): `ShouldBePurged` is true iff the task is RUNNING, its
subdomain is not excluded, no tag pair matches `excludeTags`, the exclusion
regexp (when present) does not match, and the creation time is *at or
before* `now − duration`; so it is false whenever any single exclusion rule
matches, independent of the others. -/
theorem shouldBePurged_amended (info : Information) (now : Int)
    (p : PurgeParams) :
    info.ShouldBePurged now p = amendedShouldPurge info now p := by
  unfold Information.ShouldBePurged amendedShouldPurge
  by_cases h1 : info.LastStatus ≠ statusRunning
  · rw [if_pos h1]
    have hb : (info.LastStatus == statusRunning) = false := by
      simp only [beq_eq_false_iff_ne, ne_eq]
      exact h1
    rw [hb]
    simp only [Bool.false_and]
  · rw [if_neg h1]
    have hb : (info.LastStatus == statusRunning) = true := by
      simp only [beq_iff_eq]
      exact of_not_not (by simpa using h1)
    by_cases h2 : p.excludesMap.contains info.SubDomain = true
    · rw [if_pos h2, hb, h2]
      simp only [Bool.not_true, Bool.true_and, Bool.false_and]
    · rw [if_neg h2]
      simp only [Bool.not_eq_true] at h2
      by_cases h3 : info.Tags.any
          (fun t => p.excludeTagsMap.lookup t.Key == some t.Value) = true
      · rw [if_pos h3, hb, h2, h3]
        simp only [Bool.not_true, Bool.not_false, Bool.true_and, Bool.and_false,
                   Bool.false_and]
      · rw [if_neg h3]
        simp only [Bool.not_eq_true] at h3
        by_cases h4 : (match p.ExcludeRegexp with
                       | some re => re info.SubDomain
                       | none => false) = true
        · rw [if_pos h4, hb, h2, h3, h4]
          simp only [Bool.not_true, Bool.not_false, Bool.true_and, Bool.and_false,
                     Bool.false_and]
        · rw [if_neg h4]
          simp only [Bool.not_eq_true] at h4
          by_cases h5 : info.Created > now - p.Duration
          · rw [if_pos h5]
            have hd : decide (info.Created ≤ now - p.Duration) = false := by
              simp only [decide_eq_false_iff_not]
              omega
            rw [hb, h2, h3, h4, hd]
            simp only [Bool.not_true, Bool.not_false, Bool.true_and, Bool.and_false]
          · rw [if_neg h5]
            have hd : decide (info.Created ≤ now - p.Duration) = true := by
              simp only [decide_eq_true_eq]
              omega
            rw [hb, h2, h3, h4, hd]
            simp only [Bool.not_true, Bool.not_false, Bool.true_and, Bool.and_true]

theorem string_data_append (a b : String) : (a ++ b).data = a.data ++ b.data := rfl

theorem isPrefixOf_self_append (a b : List Char) : a.isPrefixOf (a ++ b) = true := by
  induction a with
  | nil => simp [List.isPrefixOf]
  | cons c t ih => simp [List.isPrefixOf, ih]

theorem hasSubstring_append (pre sub suf : List Char) :
    hasSubstring (pre ++ sub ++ suf) sub = true := by
  induction pre with
  | nil =>
    rcases hs : sub ++ suf with _ | ⟨c, t⟩
    · have hsub : sub = [] := by
        cases sub
        · rfl
        · simp at hs
      have hsuf : suf = [] := by simpa [hsub] using hs
      simp [hsub, hsuf, hasSubstring]
    · have : ([] : List Char) ++ sub ++ suf = c :: t := by simpa using hs
      rw [this, hasSubstring, if_pos (by rw [← this]; simp [isPrefixOf_self_append])]
  | cons c t ih =>
    have hsh : (c :: t) ++ sub ++ suf = c :: (t ++ sub ++ suf) := by simp
    rw [hsh, hasSubstring]
    by_cases h : sub.isPrefixOf (c :: (t ++ sub ++ suf)) = true
    · rw [if_pos h]
    · rw [if_neg h]
      exact ih

theorem hasSubstring_of_eq {hay pre sub suf : List Char}
    (h : hay = pre ++ sub ++ suf) : hasSubstring hay sub = true := by
  rw [h]
  exact hasSubstring_append pre sub suf

/-- C6: when the auth gate passes (no validator, an OPTIONS request, or an
accepted cookie) and the wrapped transport fails with an error whose message
contains `"timeout"`, `RoundTrip` returns — with nil error — a synthesised
`504 Gateway Timeout` whose body contains the subdomain, the target URL and
the underlying error message; on any other transport error the error is
propagated unchanged. -/
theorem roundTrip_timeout (validate : Option (String → Option String))
    (subdomain method urlStr e : String) (cookie : Option String)
    (hgate : validate = none ∨ method = "OPTIONS" ∨
             (∃ v c, validate = some v ∧ cookie = some c ∧ v c = none)) :
    (hasSubstring e.data "timeout".data = true →
      roundTrip validate subdomain method cookie urlStr (.error e)
        = .ok (newTimeoutResponse subdomain urlStr e) ∧
      (newTimeoutResponse subdomain urlStr e).StatusCode = 504 ∧
      goContains (newTimeoutResponse subdomain urlStr e).Body subdomain = true ∧
      goContains (newTimeoutResponse subdomain urlStr e).Body urlStr = true ∧
      goContains (newTimeoutResponse subdomain urlStr e).Body e = true) ∧
    (hasSubstring e.data "timeout".data = false →
      roundTrip validate subdomain method cookie urlStr (.error e) = .error e) := by
  have hfwd : roundTrip validate subdomain method cookie urlStr (.error e)
      = forwardToWrapped subdomain urlStr (.error e) := by
    rcases hgate with h | h | ⟨v, c, hv, hc, hok⟩
    · rw [h]
      rfl
    · rcases validate with _ | v
      · rfl
      · simp only [roundTrip, if_pos h]
    · rw [hv, hc]
      simp only [roundTrip, hok]
      split
      · rfl
      · rfl
  have hbody : (newTimeoutResponse subdomain urlStr e).Body.data
      = subdomain.data ++ (" upstream timeout: ".data ++ (urlStr.data ++ (" ".data ++ e.data))) := by
    simp only [newTimeoutResponse, string_data_append, List.append_assoc]
  constructor
  · intro ht
    have hc : goContains e "timeout" = true := ht
    refine ⟨?_, rfl, ?_, ?_, ?_⟩
    · rw [hfwd, forwardToWrapped, hc]
      simp
    · refine @hasSubstring_of_eq _ [] subdomain.data
        (" upstream timeout: ".data ++ (urlStr.data ++ (" ".data ++ e.data))) ?_
      rw [hbody]
      simp
    · refine @hasSubstring_of_eq _ (subdomain.data ++ " upstream timeout: ".data)
        urlStr.data (" ".data ++ e.data) ?_
      rw [hbody]
      simp [List.append_assoc]
    · refine @hasSubstring_of_eq _
        (subdomain.data ++ (" upstream timeout: ".data ++ (urlStr.data ++ " ".data)))
        e.data [] ?_
      rw [hbody]
      simp [List.append_assoc]
  · intro ht
    have hc : goContains e "timeout" = false := ht
    rw [hfwd, forwardToWrapped, hc]
    simp

/-- C7: with a configured validator and a non-OPTIONS method, a missing or
rejected auth cookie makes `RoundTrip` return the synthesised `403 Forbidden`
regardless of what the wrapped transport would do (it is not consulted);
OPTIONS requests, and requests whose cookie the validator accepts, are
forwarded to the wrapped transport. -/
theorem roundTrip_forbidden (v : String → Option String)
    (subdomain method urlStr : String) (cookie : Option String)
    (inner : Except String Response) :
    (method ≠ "OPTIONS" →
      (cookie = none ∨ ∃ c err, cookie = some c ∧ v c = some err) →
      roundTrip (some v) subdomain method cookie urlStr inner
        = .ok newForbiddenResponse ∧
      newForbiddenResponse.StatusCode = 403 ∧
      newForbiddenResponse.Body = "Forbidden") ∧
    (method = "OPTIONS" →
      roundTrip (some v) subdomain method cookie urlStr inner
        = forwardToWrapped subdomain urlStr inner) ∧
    (∀ c, cookie = some c → v c = none →
      roundTrip (some v) subdomain method cookie urlStr inner
        = forwardToWrapped subdomain urlStr inner) := by
  refine ⟨?_, ?_, ?_⟩
  · intro hm hcook
    refine ⟨?_, rfl, rfl⟩
    rcases hcook with h | ⟨c, err, hc, herr⟩
    · rw [h]
      simp only [roundTrip, if_neg hm]
    · rw [hc]
      simp only [roundTrip, if_neg hm, herr]
  · intro hm
    simp only [roundTrip, if_pos hm]
  · intro c hc hok
    rw [hc]
    simp only [roundTrip, hok]
    split
    · rfl
    · rfl

theorem roundTrip_timeout_witness :
    (("" : String) = "" ∨ ("GET" : String) = "OPTIONS" ∨
      (∃ v c, (none : Option (String → Option String)) = some v ∧
        (none : Option String) = some c ∧ v c = none)) ∧
    hasSubstring "dial tcp: i/o timeout".data "timeout".data = true ∧
    roundTrip none "feature-x" "GET" none "http://10.0.0.5:80"
        (.error "dial tcp: i/o timeout")
      = .ok (newTimeoutResponse "feature-x" "http://10.0.0.5:80"
              "dial tcp: i/o timeout") := by
  refine ⟨Or.inl rfl, by decide, ?_⟩
  exact ((roundTrip_timeout none "feature-x" "GET" "http://10.0.0.5:80"
    "dial tcp: i/o timeout" none (Or.inl rfl)).1 (by decide)).1

theorem roundTrip_forbidden_witness :
    ("GET" : String) ≠ "OPTIONS" ∧
    roundTrip (some (fun _ => some "invalid")) "feature-x" "GET" none
        "http://10.0.0.5:80" (.ok { StatusCode := 200, Body := "OK" })
      = .ok newForbiddenResponse := by
  refine ⟨by decide, ?_⟩
  exact (((roundTrip_forbidden (fun _ => some "invalid") "feature-x" "GET"
    "http://10.0.0.5:80" none (.ok { StatusCode := 200, Body := "OK" })).1
    (by decide) (Or.inl rfl))).1

theorem addSubdomainLoop_no_match (lifetime : Nat) (cfg : Config)
    (targetPort : Int) (addr : String)
    (hl : cfg.localMode = false) :
    ∀ (l : List PortMap), (∀ v ∈ l, v.TargetPort ≠ targetPort) →
      ∀ ph, addSubdomainLoop lifetime cfg targetPort addr l ph false = (ph, false) := by
  intro l
  induction l with
  | nil =>
    intro _ ph
    rfl
  | cons v rest ih =>
    intro hm ph
    rw [addSubdomainLoop]
    rw [if_pos ⟨hm v (by simp), by simp [hl]⟩]
    exact ih (fun w hw => hm w (by simp [hw])) ph

/-- C3 (amended): in non-local mode, when no configured listen mapping has
target equal to `targetPort`, `AddSubdomain` warns and leaves the domain
map and the ordered domain list unchanged — but the access-counter map is
*not* left unchanged: a counter for the subdomain is created before the
listen-mapping check, and kept. -/
theorem addSubdomain_no_match (lifetime : Nat) (cfg : Config)
    (r : ReverseProxy) (subdomain ipaddress : String) (targetPort : Int)
    (hl : cfg.localMode = false)
    (hm : ∀ v ∈ cfg.ListenHTTP, v.TargetPort ≠ targetPort) :
    (r.AddSubdomain lifetime cfg subdomain ipaddress targetPort).domainMap
        = r.domainMap ∧
    (r.AddSubdomain lifetime cfg subdomain ipaddress targetPort).domains
        = r.domains ∧
    (r.AddSubdomain lifetime cfg subdomain ipaddress targetPort).accessCounters
        = (match r.accessCounters.lookup subdomain with
           | some _ => r.accessCounters
           | none => r.accessCounters
                       ++ [(subdomain, { unit := r.accessCounterUnit })]) := by
  have hloop := addSubdomainLoop_no_match lifetime cfg targetPort
    (joinHostPort ipaddress targetPort) hl cfg.ListenHTTP hm
    ((r.domainMap.lookup subdomain).getD [])
  unfold ReverseProxy.AddSubdomain
  simp only [hloop]
  simp

/-- C3 counterexample: `AddSubdomain("foo", "10.0.0.1", 8000)` against a
config whose only mapping targets port 80 (non-local mode) matches no
listen mapping, yet the access-counter map changes: it gains a counter for
`"foo"`.  The domain map and domain list do stay unchanged. -/
theorem addSubdomain_counterexample :
    noMatchConfig.localMode = false ∧
    (∀ v ∈ noMatchConfig.ListenHTTP, v.TargetPort ≠ (8000 : Int)) ∧
    (emptyRegistry.AddSubdomain 30 noMatchConfig "foo" "10.0.0.1" 8000).accessCounters
        ≠ emptyRegistry.accessCounters := by
  refine ⟨rfl, by decide, by decide⟩

theorem addSubdomain_no_match_witness :
    (emptyRegistry.AddSubdomain 30 noMatchConfig "foo" "10.0.0.1" 8000).domainMap
        = [] ∧
    (emptyRegistry.AddSubdomain 30 noMatchConfig "foo" "10.0.0.1" 8000).domains
        = [] ∧
    (emptyRegistry.AddSubdomain 30 noMatchConfig "foo" "10.0.0.1" 8000).accessCounters
        = [("foo", { unit := 60 })] := by
  have h := addSubdomain_no_match 30 noMatchConfig emptyRegistry "foo"
    "10.0.0.1" 8000 rfl (by decide)
  exact ⟨h.1, h.2.1, by rw [h.2.2]; rfl⟩

theorem handler_members (ph : ProxyHandlers) (port : Int) :
    ∀ (pt : Int) (hs : List (String × ProxyHandler)) (ad : String)
      (h' : ProxyHandler),
      (pt, hs) ∈ (ph.Handler port).2 → (ad, h') ∈ hs →
      ∃ hs0, (pt, hs0) ∈ ph ∧ (ad, h') ∈ hs0 := by
  intro pt hs ad h' hmem hmem2
  unfold ProxyHandlers.Handler at hmem
  rcases hlook : List.lookup port ph with _ | handlers
  · rw [hlook] at hmem
    exact ⟨hs, hmem, hmem2⟩
  · rw [hlook] at hmem
    dsimp only at hmem
    by_cases hemp : handlers.isEmpty = true
    · rw [if_pos hemp] at hmem
      exact ⟨hs, hmem, hmem2⟩
    · rw [if_neg hemp] at hmem
      rcases mem_assocPut hmem with heq | hm
      · have h1 : pt = port := congrArg Prod.fst heq
        have h2 : hs = (handlerScan handlers).2 := congrArg Prod.snd heq
        subst h1
        refine ⟨handlers, lookup_mem hlook, ?_⟩
        apply handlerScan_sublist handlers
        rw [← h2]
        exact hmem2
      · exact ⟨hs, hm, hmem2⟩

theorem handler_isSome (ph : ProxyHandlers) (port : Int) :
    (ph.Handler port).1.isSome = (phPort ph port).any (fun ah => ah.2.alive) := by
  unfold ProxyHandlers.Handler phPort
  rcases hlook : List.lookup port ph with _ | handlers
  · simp
  · dsimp only
    by_cases hemp : handlers.isEmpty = true
    · rw [if_pos hemp]
      have : handlers = [] := by simpa [List.isEmpty_iff] using hemp
      simp [this]
    · rw [if_neg hemp]
      simpa using handlerScan_isSome_iff handlers

/-- C1 counterexample: `FindHandler("app", 80)` returns the live handler,
yet the registry after the lookup is unchanged — the returned handler's
timer still has 5 units left, not the full `proxyHandlerLifetime`.  The
lookup path (`FindHandler` / `proxyHandlers.Handler`) never calls
`extend`. -/
theorem findHandler_counterexample :
    (liveHandlerState.FindHandler "app" 80).1
        = some { handler := "http://10.0.0.5:80", remaining := 5 } ∧
    ((liveHandlerState.FindHandler "app" 80).1.map ProxyHandler.alive
        = some true) ∧
    (liveHandlerState.FindHandler "app" 80).2 = liveHandlerState ∧
    (5 : Nat) ≠ proxyHandlerLifetime := by
  refine ⟨rfl, rfl, by decide, by decide⟩

/-- C1 (amended): a `FindHandler` lookup never resets any handler's
deadline timer — every handler still present after the lookup is present
with its timer exactly as before (the lookup only deletes dead entries).
The deadline is reset to the full lifetime by the liveness check
`proxyHandlers.exists`, which `AddSubdomain` runs when re-registering a
live handler. -/
theorem findHandler_no_extend (r : ReverseProxy) (subdomain : String)
    (port : Int) :
    (∀ (nm : String) (ph' : ProxyHandlers) (pt : Int)
        (hs : List (String × ProxyHandler)) (ad : String) (h' : ProxyHandler),
        (nm, ph') ∈ (r.FindHandler subdomain port).2.domainMap →
        (pt, hs) ∈ ph' → (ad, h') ∈ hs →
        ∃ ph hs0, (nm, ph) ∈ r.domainMap ∧ (pt, hs0) ∈ ph ∧ (ad, h') ∈ hs0) ∧
    (∀ (lifetime : Nat) (ph : ProxyHandlers) (pt : Int) (ad : String)
        (hs : List (String × ProxyHandler)) (h : ProxyHandler),
        List.lookup pt ph = some hs → List.lookup ad hs = some h →
        h.alive = true →
        (ph.existsAt lifetime pt ad).1 = true ∧
        (List.lookup pt (ph.existsAt lifetime pt ad).2).bind
            (fun l => List.lookup ad l) = some (h.extend lifetime) ∧
        (h.extend lifetime).remaining = lifetime) := by
  constructor
  · intro nm ph' pt hs ad h' hmem hmem2 hmem3
    unfold ReverseProxy.FindHandler at hmem
    rcases hlook : List.lookup subdomain r.domainMap with _ | ph
    · rw [hlook] at hmem
      dsimp only at hmem
      rcases hfind : r.domains.find? (fun name => globMatches name subdomain)
        with _ | name
      · rw [hfind] at hmem
        exact ⟨ph', hs, hmem, hmem2, hmem3⟩
      · rw [hfind] at hmem
        dsimp only at hmem
        rcases hlook2 : List.lookup name r.domainMap with _ | ph2
        · rw [hlook2] at hmem
          exact ⟨ph', hs, hmem, hmem2, hmem3⟩
        · rw [hlook2] at hmem
          dsimp only at hmem
          rcases mem_assocPut hmem with heq | hm
          · have h2 : ph' = (ph2.Handler port).2 := congrArg Prod.snd heq
            rw [h2] at hmem2
            obtain ⟨hs0, hm0, hm1⟩ :=
              handler_members ph2 port pt hs ad h' hmem2 hmem3
            have h1 : nm = name := congrArg Prod.fst heq
            refine ⟨ph2, hs0, ?_, hm0, hm1⟩
            rw [h1]
            exact lookup_mem hlook2
          · exact ⟨ph', hs, hm, hmem2, hmem3⟩
    · rw [hlook] at hmem
      dsimp only at hmem
      rcases mem_assocPut hmem with heq | hm
      · have h2 : ph' = (ph.Handler port).2 := congrArg Prod.snd heq
        rw [h2] at hmem2
        obtain ⟨hs0, hm0, hm1⟩ := handler_members ph port pt hs ad h' hmem2 hmem3
        have h1 : nm = subdomain := congrArg Prod.fst heq
        refine ⟨ph, hs0, ?_, hm0, hm1⟩
        rw [h1]
        exact lookup_mem hlook
      · exact ⟨ph', hs, hm, hmem2, hmem3⟩
  · intro lifetime ph pt ad hs h hlook hlook2 halive
    unfold ProxyHandlers.existsAt
    rw [hlook]
    dsimp only
    rw [hlook2]
    dsimp only
    rw [if_pos halive]
    refine ⟨rfl, ?_, rfl⟩
    rw [lookup_assocPut_self]
    dsimp only [Option.bind]
    rw [lookup_assocPut_self]

theorem findHandler_no_extend_witness :
    (∃ ph hs0, ("app", ph) ∈ liveHandlerState.domainMap ∧
      ((80 : Int), hs0) ∈ ph ∧
      ("10.0.0.5:80", ({ handler := "http://10.0.0.5:80", remaining := 5 }
          : ProxyHandler)) ∈ hs0) ∧
    (ProxyHandlers.existsAt 30
      [(80, [("10.0.0.5:80",
          ({ handler := "http://10.0.0.5:80", remaining := 5 } : ProxyHandler))])]
      80 "10.0.0.5:80").1 = true := by
  have h := findHandler_no_extend liveHandlerState "app" 80
  constructor
  · exact h.1 "app"
      [(80, [("10.0.0.5:80",
        { handler := "http://10.0.0.5:80", remaining := 5 })])]
      80 [("10.0.0.5:80", { handler := "http://10.0.0.5:80", remaining := 5 })]
      "10.0.0.5:80" { handler := "http://10.0.0.5:80", remaining := 5 }
      (by decide) (by decide) (by decide)
  · exact (h.2 30
      [(80, [("10.0.0.5:80",
        { handler := "http://10.0.0.5:80", remaining := 5 })])]
      80 "10.0.0.5:80"
      [("10.0.0.5:80", { handler := "http://10.0.0.5:80", remaining := 5 })]
      { handler := "http://10.0.0.5:80", remaining := 5 }
      (by decide) (by decide) (by decide)).1

/-- C2 counterexample: a live handler *is* registered for port 80 under a
registered name (`"a*"`) whose glob matches `"app"`, but
`FindHandler("app", 80)` still returns none, because the exact entry for
`"app"` shadows the glob and contains no live handler on that port. -/
theorem findHandler_shadow_counterexample :
    (shadowedState.FindHandler "app" 80).1 = none ∧
    claimLiveRegistered shadowedState "app" 80 = true := by
  constructor
  · rfl
  · decide

/-- C2 (amended): `FindHandler(s, p)` returns a handler iff the entry it
*resolves to* — the exact `domainMap` entry when `s` is a key, otherwise
the entry of the first registered name in registration order whose glob
matches `s` — contains a live handler on port `p`; a live handler
registered only under a later-matching or shadowed name is not found.
When the scan of the resolved port map finds no live handler, every dead
handler it encountered is deleted. -/
theorem findHandler_isSome_iff (r : ReverseProxy) (subdomain : String)
    (port : Int) :
    ((r.FindHandler subdomain port).1.isSome = true ↔
      (∃ ph, resolvedEntry r subdomain = some ph ∧
        (phPort ph port).any (fun ah => ah.2.alive) = true)) ∧
    (∀ l : List (String × ProxyHandler),
      (handlerScan l).1 = none → (handlerScan l).2 = []) := by
  refine ⟨?_, handlerScan_none_nil⟩
  unfold ReverseProxy.FindHandler resolvedEntry
  rcases hlook : List.lookup subdomain r.domainMap with _ | ph
  · dsimp only
    rcases hfind : r.domains.find? (fun name => globMatches name subdomain)
      with _ | name
    · simp
    · dsimp only
      rcases hlook2 : List.lookup name r.domainMap with _ | ph2
      · simp
      · dsimp only
        rw [handler_isSome ph2 port]
        constructor
        · intro h
          exact ⟨ph2, rfl, h⟩
        · intro hx
          obtain ⟨ph3, heq, h⟩ := hx
          cases Option.some.inj heq
          exact h
  · dsimp only
    rw [handler_isSome ph port]
    constructor
    · intro h
      exact ⟨ph, rfl, h⟩
    · intro ⟨ph3, heq, h⟩
      cases Option.some.inj heq
      exact h

theorem findHandler_isSome_iff_witness :
    ((shadowedState.FindHandler "a*" 80).1.isSome = true) ∧
    (∃ ph, resolvedEntry shadowedState "a*" = some ph ∧
      (phPort ph 80).any (fun ah => ah.2.alive) = true) := by
  have h := (findHandler_isSome_iff shadowedState "a*" 80).1
  refine ⟨?_, h.mp (by decide)⟩
  decide

theorem mem_insertBySubDomain {x a : Information} :
    ∀ {l : List Information}, x ∈ insertBySubDomain a l → x = a ∨ x ∈ l := by
  intro l
  induction l with
  | nil =>
    intro h
    simp [insertBySubDomain] at h
    simp [h]
  | cons b t ih =>
    intro h
    rw [insertBySubDomain] at h
    by_cases hab : a.SubDomain ≤ b.SubDomain
    · rw [if_pos hab] at h
      rcases List.mem_cons.mp h with h | h
      · exact Or.inl h
      · exact Or.inr h
    · rw [if_neg hab] at h
      rcases List.mem_cons.mp h with h | h
      · exact Or.inr (by simp [h])
      · rcases ih h with h' | h'
        · exact Or.inl h'
        · exact Or.inr (List.mem_cons_of_mem _ h')

theorem mem_sortBySubDomain {x : Information} :
    ∀ {l : List Information}, x ∈ sortBySubDomain l → x ∈ l := by
  intro l
  induction l with
  | nil =>
    intro h
    simp [sortBySubDomain] at h
  | cons b t ih =>
    intro h
    rcases mem_insertBySubDomain h with h' | h'
    · simp [h']
    · exact List.mem_cons_of_mem _ (ih h')

theorem sorted_insertBySubDomain (a : Information) :
    ∀ l : List Information,
      List.Pairwise (fun i j : Information => i.SubDomain ≤ j.SubDomain) l →
      List.Pairwise (fun i j : Information => i.SubDomain ≤ j.SubDomain)
        (insertBySubDomain a l) := by
  intro l
  induction l with
  | nil =>
    intro _
    simp [insertBySubDomain]
  | cons b t ih =>
    intro h
    rcases List.pairwise_cons.mp h with ⟨hb, hl⟩
    rw [insertBySubDomain]
    by_cases hab : a.SubDomain ≤ b.SubDomain
    · rw [if_pos hab]
      refine List.Pairwise.cons ?_ h
      intro y hy
      rcases List.mem_cons.mp hy with hy' | hy'
      · rw [hy']
        exact hab
      · exact le_trans hab (hb y hy')
    · rw [if_neg hab]
      have hba : b.SubDomain ≤ a.SubDomain := le_of_not_le hab
      refine List.Pairwise.cons ?_ (ih hl)
      intro y hy
      rcases mem_insertBySubDomain hy with hy' | hy'
      · rw [hy']
        exact hba
      · exact hb y hy'

theorem sorted_sortBySubDomain (l : List Information) :
    List.Pairwise (fun i j : Information => i.SubDomain ≤ j.SubDomain)
      (sortBySubDomain l) := by
  induction l with
  | nil => simp [sortBySubDomain]
  | cons b t ih => exact sorted_insertBySubDomain b _ ih

theorem infoOfTask_tag (dec : String → String)
    (pmOf : ECSTask → Option (List (String × Int))) (t : ECSTask)
    (i : Information) (h : infoOfTask dec pmOf t = some i) :
    tagValueIn i.Tags TagManagedBy = TagValueMirage := by
  unfold infoOfTask at h
  by_cases hc : getTagsFromTask t TagManagedBy ≠ TagValueMirage
  · rw [if_pos hc] at h
    cases h
  · rw [if_neg hc] at h
    have hi := Option.some.inj h
    have htags : i.Tags = t.Tags := by rw [← hi]
    rw [htags]
    exact of_not_not hc

theorem ecsListPages_tag (dec : String → String)
    (pmOf : ECSTask → Option (List (String × Int))) :
    ∀ (pages : List (List ECSTask)) (acc : List Information),
      (∀ i ∈ acc, tagValueIn i.Tags TagManagedBy = TagValueMirage) →
      ∀ i ∈ ecsListPages dec pmOf acc pages,
        tagValueIn i.Tags TagManagedBy = TagValueMirage := by
  intro pages
  induction pages with
  | nil =>
    intro acc hacc i hi
    rw [ecsListPages] at hi
    exact hacc i hi
  | cons page rest ih =>
    intro acc hacc i hi
    rw [ecsListPages] at hi
    by_cases hemp : page.isEmpty = true
    · rw [if_pos hemp] at hi
      cases hi
    · rw [if_neg hemp] at hi
      refine ih _ ?_ i hi
      intro j hj
      rcases List.mem_append.mp hj with hj' | hj'
      · exact hacc j hj'
      · obtain ⟨t, _, hjt⟩ := List.mem_filterMap.mp hj'
        exact infoOfTask_tag dec pmOf t j hjt

/-- C9: every `Information` entry returned by `ECS.List` carries the
cluster tag `ManagedBy=Mirage` (tasks lacking that tag value are omitted
when the pages are collected), and the returned list is sorted by subdomain
in ascending order — for any desired status, i.e. for any sequence of
cluster responses, any tag decoder and any port-map resolver. -/
theorem ecsList_managed_sorted (dec : String → String)
    (pmOf : ECSTask → Option (List (String × Int)))
    (pages : List (List ECSTask)) :
    (∀ info ∈ ECS.List dec pmOf pages,
        tagValueIn info.Tags TagManagedBy = TagValueMirage) ∧
    List.Pairwise (fun i j : Information => i.SubDomain ≤ j.SubDomain)
      (ECS.List dec pmOf pages) := by
  constructor
  · intro info hmem
    unfold ECS.List at hmem
    exact ecsListPages_tag dec pmOf pages [] (by simp) info
      (mem_sortBySubDomain hmem)
  · unfold ECS.List
    exact sorted_sortBySubDomain _

theorem ecsList_managed_sorted_witness :
    ECS.List (fun s => s) (fun _ => none) [[mirageTask, foreignTask]]
        = [listedInfo] ∧
    tagValueIn listedInfo.Tags TagManagedBy = TagValueMirage := by
  refine ⟨by decide, ?_⟩
  exact (ecsList_managed_sorted (fun s => s) (fun _ => none)
    [[mirageTask, foreignTask]]).1 listedInfo (by decide)

end MirageECS
